import Mathlib

/-!
Verification of the bespoke package (vikasgorur/bespoke): a library that
builds composite images, executables with a zip archive appended, and reads
named entries back from the running binary.

Two layers of embedding, both translated from src/bespoke.go (and, for
WithDir, from the earlier revisions of the same file in src/unnamed):

- a byte-level layer for the offset relocation pass (findEocdOffset,
  fhRecordSize, fixOffsets): buffers are total functions from index to byte
  value, little-endian fields are read and written at explicit offsets, and
  uint32 arithmetic wraps modulo 2^32 exactly where the Go code uses uint32;

- an entry-level layer for the builder state machine (newBespoke, addBuffer,
  addFile, finalize, Read, WithMap, WithFile, WithDir, readFile, ReadFile,
  Map): the zip writer and reader of Go's archive/zip and the json codec of
  encoding/json are external collaborators whose sources are not part of
  this repository, so they are modelled from the spec where a claim needs
  them; I/O outcomes of collaborators (io.Copy, CreateHeader, Write, Close,
  ioutil.ReadFile) are explicit oracle arguments so that every error path of
  the Go control flow is represented.
-/

set_option linter.unusedVariables false

/-! ## Byte-level layer: buffers and little-endian fields -/

/-- A byte buffer, as a total function from index to byte value. -/
def Buf : Type := Nat → Nat

/-- View a list of bytes as a buffer; out-of-range indices read as 0. -/
def toBuf (l : List Nat) : Buf := fun i => l.getD i 0

/-- Little-endian 16-bit read, as binary.LittleEndian.Uint16 in the source. -/
def readUint16 (b : Buf) (off : Nat) : Nat :=
  b off + 256 * b (off + 1)

/-- Little-endian 32-bit read, as binary.LittleEndian.Uint32 in the source. -/
def readUint32 (b : Buf) (off : Nat) : Nat :=
  b off + 256 * b (off + 1) + 65536 * b (off + 2) + 16777216 * b (off + 3)

/-- Little-endian 32-bit write, as binary.LittleEndian.PutUint32. -/
def putUint32 (b : Buf) (off v : Nat) : Buf :=
  fun i =>
    if i = off then v % 256
    else if i = off + 1 then v / 256 % 256
    else if i = off + 2 then v / 65536 % 256
    else if i = off + 3 then v / 16777216 % 256
    else b i

theorem putUint32_frame (b : Buf) (off v j : Nat)
    (h : j < off ∨ off + 4 ≤ j) : putUint32 b off v j = b j := by
  unfold putUint32
  have h0 : j ≠ off := by omega
  have h1 : j ≠ off + 1 := by omega
  have h2 : j ≠ off + 2 := by omega
  have h3 : j ≠ off + 3 := by omega
  simp [h0, h1, h2, h3]

theorem putUint32_get (b : Buf) (off v : Nat) :
    readUint32 (putUint32 b off v) off = v % 4294967296 := by
  have e0 : putUint32 b off v off = v % 256 := by
    unfold putUint32; rw [if_pos rfl]
  have e1 : putUint32 b off v (off + 1) = v / 256 % 256 := by
    unfold putUint32; rw [if_neg (by omega), if_pos rfl]
  have e2 : putUint32 b off v (off + 2) = v / 65536 % 256 := by
    unfold putUint32; rw [if_neg (by omega), if_neg (by omega), if_pos rfl]
  have e3 : putUint32 b off v (off + 3) = v / 16777216 % 256 := by
    unfold putUint32
    rw [if_neg (by omega), if_neg (by omega), if_neg (by omega), if_pos rfl]
  unfold readUint32
  rw [e0, e1, e2, e3]
  omega

theorem readUint16_congr (b b' : Buf) (off : Nat)
    (h : ∀ j, off ≤ j → j < off + 2 → b' j = b j) :
    readUint16 b' off = readUint16 b off := by
  unfold readUint16
  rw [h off (by omega) (by omega), h (off + 1) (by omega) (by omega)]

theorem readUint32_congr (b b' : Buf) (off : Nat)
    (h : ∀ j, off ≤ j → j < off + 4 → b' j = b j) :
    readUint32 b' off = readUint32 b off := by
  unfold readUint32
  rw [h off (by omega) (by omega), h (off + 1) (by omega) (by omega),
    h (off + 2) (by omega) (by omega), h (off + 3) (by omega) (by omega)]

/-! ## The EOCD signature scan (findEocdOffset) -/

/-- Whether the four EOCD signature bytes (0x06054b50, little-endian) start
at index `i`, exactly the comparison in the scan loop of findEocdOffset. -/
def sigAt (b : Buf) (i : Nat) : Bool :=
  b i == 80 && b (i + 1) == 75 && b (i + 2) == 5 && b (i + 3) == 6

/-- The scan loop of findEocdOffset: try indices m, m-1, ..., 1. -/
def findEocdLoop (b : Buf) : Nat → Option Nat
  | 0 => none
  | m + 1 => if sigAt b (m + 1) then some (m + 1) else findEocdLoop b m

/-- findEocdOffset from the source: scan backward from len-4, stopping
before index 0; returns the position of the end-of-central-directory
signature, or none (the source returns -1). -/
def findEocdOffset (b : Buf) (len : Nat) : Option Nat :=
  findEocdLoop b (len - 4)

theorem findEocdLoop_eq (b : Buf) (e : Nat) (he1 : 1 ≤ e) :
    ∀ m, e ≤ m → sigAt b e = true →
      (∀ j, j ≤ m → e < j → sigAt b j = false) →
      findEocdLoop b m = some e := by
  intro m
  induction m with
  | zero => intro h; omega
  | succ k ih =>
    intro hem hsig hno
    by_cases hcase : e = k + 1
    · subst hcase
      unfold findEocdLoop
      simp [hsig]
    · have hek : e ≤ k := by omega
      have hfalse : sigAt b (k + 1) = false := hno (k + 1) (by omega) (by omega)
      unfold findEocdLoop
      simp only [hfalse]
      simp only [Bool.false_eq_true, if_false]
      exact ih hek hsig (fun j hj hej => hno j (by omega) hej)

/-! ## Central directory record size and the relocation pass -/

/-- fhRecordSize from the source: fixed 46-byte header plus the filename,
extra-field and comment lengths stored at offsets 28, 30 and 32 of the
central directory file header record. -/
def fhRecordSize (b : Buf) (off : Nat) : Nat :=
  46 + readUint16 b (off + 28) + readUint16 b (off + 30) + readUint16 b (off + 32)

theorem fhRecordSize_ge (b : Buf) (off : Nat) : 46 ≤ fhRecordSize b off := by
  unfold fhRecordSize; omega

theorem fhRecordSize_congr (b b' : Buf) (off : Nat)
    (h : ∀ j, off + 28 ≤ j → j < off + 34 → b' j = b j) :
    fhRecordSize b' off = fhRecordSize b off := by
  unfold fhRecordSize
  rw [readUint16_congr b b' (off + 28) (fun j h1 h2 => h j (by omega) (by omega)),
    readUint16_congr b b' (off + 30) (fun j h1 h2 => h j (by omega) (by omega)),
    readUint16_congr b b' (off + 32) (fun j h1 h2 => h j (by omega) (by omega))]

/-- The body of one iteration of the loop of fixOffsets: read the 4-byte
entry-data offset at h+42, add the executable length (uint32 wrap-around)
and write the sum back in place. -/
def patchRec (exeLength : Nat) (buf : Buf) (h : Nat) : Buf :=
  putUint32 buf (h + 42) ((readUint32 buf (h + 42) + exeLength) % 4294967296)

theorem patchRec_frame (L : Nat) (b : Buf) (h j : Nat)
    (hj : j < h + 42 ∨ h + 46 ≤ j) : patchRec L b h j = b j :=
  putUint32_frame b (h + 42) _ j (by omega)

theorem patchRec_get (L : Nat) (b : Buf) (h : Nat) :
    readUint32 (patchRec L b h) (h + 42) = (readUint32 b (h + 42) + L) % 4294967296 := by
  unfold patchRec
  rw [putUint32_get]
  omega

/-- The loop of fixOffsets: for each of the remaining records, patch the
offset field at position h+42, then advance h by the record size read from
the updated buffer, with uint32 wrap-around, exactly as in the source. -/
def fixLoop (exeLength : Nat) : Nat → Buf → Nat → Buf
  | 0, buf, _ => buf
  | k + 1, buf, h =>
    fixLoop exeLength k (patchRec exeLength buf h)
      ((h + fhRecordSize (patchRec exeLength buf h) h) % 4294967296)

/-- The list of walk positions h visited by the loop of fixOffsets; same
recursion as fixLoop, recording each h before the step. -/
def fixLoopTrace (exeLength : Nat) : Nat → Buf → Nat → List Nat
  | 0, _, _ => []
  | k + 1, buf, h =>
    h :: fixLoopTrace exeLength k (patchRec exeLength buf h)
      ((h + fhRecordSize (patchRec exeLength buf h) h) % 4294967296)

/-- fixOffsets from the source: locate the EOCD by backward signature scan
(error when absent), read the record count at eocd+10 and the central
directory start offset at eocd+16, add the executable length to the start
offset (uint32) and write it back, then walk the records from the updated
start value patching each offset field at record+42. -/
def fixOffsets (exeLength : Nat) (b : Buf) (len : Nat) : Except String Buf :=
  match findEocdOffset b len with
  | none => Except.error ("could not find EOCD in archive")
  | some eocd =>
    Except.ok (fixLoop exeLength (readUint16 b (eocd + 10))
      (putUint32 b (eocd + 16) ((readUint32 b (eocd + 16) + exeLength) % 4294967296))
      ((readUint32 b (eocd + 16) + exeLength) % 4294967296))

/-- Same control flow as fixOffsets, but returning the list of walk
positions of the record loop instead of the patched buffer. -/
def fixOffsetsTrace (exeLength : Nat) (b : Buf) (len : Nat) :
    Except String (List Nat) :=
  match findEocdOffset b len with
  | none => Except.error ("could not find EOCD in archive")
  | some eocd =>
    Except.ok (fixLoopTrace exeLength (readUint16 b (eocd + 10))
      (putUint32 b (eocd + 16) ((readUint32 b (eocd + 16) + exeLength) % 4294967296))
      ((readUint32 b (eocd + 16) + exeLength) % 4294967296))

/-! ## The chain of central directory record positions -/

/-- Positions of successive central directory records in a buffer, starting
at h: each record is followed by the next after fhRecordSize bytes. -/
def recPosAux (b : Buf) (h : Nat) : Nat → Nat
  | 0 => h
  | i + 1 => recPosAux b h i + fhRecordSize b (recPosAux b h i)

/-- The record count stored at offset 10 of the EOCD record. -/
def zipN (b : Buf) (eocd : Nat) : Nat := readUint16 b (eocd + 10)

/-- The central directory start offset stored at offset 16 of the EOCD. -/
def zipStart (b : Buf) (eocd : Nat) : Nat := readUint32 b (eocd + 16)

/-- Record positions of a composite buffer whose archive segment starts at
L: the first record sits at L plus the archive-relative start offset. -/
def cdPos (b : Buf) (L eocd : Nat) : Nat → Nat :=
  recPosAux b (L + zipStart b eocd)

/-- Record positions inside the bare archive, from its own EOCD fields. -/
def bareCdPos (arch : List Nat) (e : Nat) : Nat → Nat :=
  recPosAux (toBuf arch) (zipStart (toBuf arch) e)

theorem recPosAux_zero (b : Buf) (h : Nat) : recPosAux b h 0 = h := rfl

theorem recPosAux_succ (b : Buf) (h i : Nat) :
    recPosAux b h (i + 1) = recPosAux b h i + fhRecordSize b (recPosAux b h i) := rfl

theorem recPosAux_mono (b : Buf) (h : Nat) :
    ∀ i j, i ≤ j → recPosAux b h i ≤ recPosAux b h j := by
  intro i j hij
  induction j with
  | zero =>
    have hi : i = 0 := by omega
    subst hi
    exact Nat.le_refl _
  | succ k ih =>
    rcases Nat.lt_or_ge i (k + 1) with hlt | hge
    · have h1 : recPosAux b h i ≤ recPosAux b h k := ih (by omega)
      rw [recPosAux_succ]
      omega
    · have hi : i = k + 1 := by omega
      subst hi
      exact Nat.le_refl _

theorem recPosAux_gap (b : Buf) (h : Nat) (i j : Nat) (hij : i < j) :
    recPosAux b h i + 46 ≤ recPosAux b h j := by
  have h1 : recPosAux b h i + 46 ≤ recPosAux b h (i + 1) := by
    rw [recPosAux_succ]
    have := fhRecordSize_ge b (recPosAux b h i)
    omega
  have h2 : recPosAux b h (i + 1) ≤ recPosAux b h j := recPosAux_mono b h (i + 1) j hij
  omega

theorem recPosAux_congr (b b' : Buf) (h : Nat) (k : Nat)
    (hsz : ∀ i, i < k → fhRecordSize b' (recPosAux b h i) = fhRecordSize b (recPosAux b h i)) :
    ∀ i, i ≤ k → recPosAux b' h i = recPosAux b h i := by
  intro i
  induction i with
  | zero => intro _; rfl
  | succ m ih =>
    intro hm
    have hr : recPosAux b' h m = recPosAux b h m := ih (by omega)
    rw [recPosAux_succ, recPosAux_succ, hr, hsz m (by omega)]

/-! ## Well-formedness of a finalized archive inside a composite buffer -/

/-- Structural facts about a buffer b holding an executable of length L
followed by a closed zip archive, total buffer length len, with the EOCD
signature at position eocd. These hold for every archive the zip writer
produces (a signed EOCD after all central directory records, no stray
signature after it, offsets small enough for 32-bit fields) and are the
hypotheses under which the relocation pass is proved correct. -/
structure ZipWF (b : Buf) (L len eocd : Nat) : Prop where
  one : 1 ≤ eocd
  exe_le : L ≤ eocd
  end_le : eocd + 20 ≤ len
  lt32 : eocd + 20 < 4294967296
  sig : sigAt b eocd = true
  nosig : ∀ j, j ≤ len - 4 → eocd < j → sigAt b j = false
  start32 : zipStart b eocd + L < 4294967296
  fit : ∀ i, i < zipN b eocd →
    cdPos b L eocd i + fhRecordSize b (cdPos b L eocd i) ≤ eocd
  off32 : ∀ i, i < zipN b eocd →
    readUint32 b (cdPos b L eocd i + 42) + L < 4294967296

/-! ## Correctness of the record loop -/

theorem chain_mono (b : Buf) (p : Nat → Nat) (k : Nat)
    (hchain : ∀ i, i < k → p (i + 1) = p i + fhRecordSize b (p i)) :
    ∀ i j, i ≤ j → j ≤ k → p i ≤ p j := by
  intro i j hij hjk
  induction j with
  | zero =>
    have hi : i = 0 := by omega
    subst hi
    exact Nat.le_refl _
  | succ m ih =>
    rcases Nat.lt_or_ge i (m + 1) with hlt | hge
    · have h1 : p i ≤ p m := ih (by omega) (by omega)
      have h2 := hchain m (by omega)
      have h3 := fhRecordSize_ge b (p m)
      omega
    · have hi : i = m + 1 := by omega
      subst hi
      exact Nat.le_refl _

theorem chain_gap (b : Buf) (p : Nat → Nat) (k : Nat)
    (hchain : ∀ i, i < k → p (i + 1) = p i + fhRecordSize b (p i)) :
    ∀ i, 1 ≤ i → i ≤ k → p 0 + 46 ≤ p i := by
  intro i h1 h2
  have h46 : p 0 + 46 ≤ p 1 := by
    have hc : p 1 = p 0 + fhRecordSize b (p 0) := hchain 0 (by omega)
    have hg := fhRecordSize_ge b (p 0)
    omega
  have hm : p 1 ≤ p i := chain_mono b p k hchain 1 i h1 h2
  omega

theorem fixLoop_spec (L : Nat) :
    ∀ (k : Nat) (b : Buf) (p : Nat → Nat),
      (∀ i, i < k → p (i + 1) = p i + fhRecordSize b (p i)) →
      (∀ i, i < k → p i + fhRecordSize b (p i) < 4294967296) →
      ((∀ i, i < k → readUint32 (fixLoop L k b (p 0)) (p i + 42)
          = (readUint32 b (p i + 42) + L) % 4294967296)
      ∧ (∀ j, (∀ i, i < k → j < p i + 42 ∨ p i + 46 ≤ j) →
          fixLoop L k b (p 0) j = b j)) := by
  intro k
  induction k with
  | zero =>
    intro b p _ _
    refine ⟨fun i hi => absurd hi (Nat.not_lt_zero i), fun j _ => rfl⟩
  | succ k ih =>
    intro b p hchain hwrap
    have hgap : ∀ i, 1 ≤ i → i ≤ k + 1 → p 0 + 46 ≤ p i :=
      chain_gap b p (k + 1) hchain
    have hsz0 : fhRecordSize (patchRec L b (p 0)) (p 0) = fhRecordSize b (p 0) := by
      apply fhRecordSize_congr
      intro j hj1 hj2
      exact patchRec_frame L b (p 0) j (by omega)
    have hnext : ((p 0 + fhRecordSize (patchRec L b (p 0)) (p 0)) % 4294967296) = p 1 := by
      rw [hsz0]
      have h1 : p 1 = p 0 + fhRecordSize b (p 0) := hchain 0 (by omega)
      have h2 := hwrap 0 (by omega)
      rw [← h1]
      exact Nat.mod_eq_of_lt (by omega)
    have hszhigh : ∀ i, 1 ≤ i → i ≤ k + 1 →
        fhRecordSize (patchRec L b (p 0)) (p i) = fhRecordSize b (p i) := by
      intro i h1 h2
      apply fhRecordSize_congr
      intro j hj1 hj2
      have := hgap i h1 h2
      exact patchRec_frame L b (p 0) j (by omega)
    have hreadhigh : ∀ i, 1 ≤ i → i ≤ k + 1 →
        readUint32 (patchRec L b (p 0)) (p i + 42) = readUint32 b (p i + 42) := by
      intro i h1 h2
      apply readUint32_congr
      intro j hj1 hj2
      have := hgap i h1 h2
      exact patchRec_frame L b (p 0) j (by omega)
    have hchain' : ∀ i, i < k →
        p (i + 1 + 1) = p (i + 1) + fhRecordSize (patchRec L b (p 0)) (p (i + 1)) := by
      intro i hi
      rw [hszhigh (i + 1) (by omega) (by omega)]
      exact hchain (i + 1) (by omega)
    have hwrap' : ∀ i, i < k →
        p (i + 1) + fhRecordSize (patchRec L b (p 0)) (p (i + 1)) < 4294967296 := by
      intro i hi
      rw [hszhigh (i + 1) (by omega) (by omega)]
      exact hwrap (i + 1) (by omega)
    have hih : ((∀ i, i < k →
          readUint32 (fixLoop L k (patchRec L b (p 0)) (p 1)) (p (i + 1) + 42)
            = (readUint32 (patchRec L b (p 0)) (p (i + 1) + 42) + L) % 4294967296)
        ∧ (∀ j, (∀ i, i < k → j < p (i + 1) + 42 ∨ p (i + 1) + 46 ≤ j) →
            fixLoop L k (patchRec L b (p 0)) (p 1) j = patchRec L b (p 0) j)) :=
      ih (patchRec L b (p 0)) (fun i => p (i + 1)) hchain' hwrap'
    have hres : fixLoop L (k + 1) b (p 0)
        = fixLoop L k (patchRec L b (p 0)) (p 1) := by
      show fixLoop L k (patchRec L b (p 0))
        ((p 0 + fhRecordSize (patchRec L b (p 0)) (p 0)) % 4294967296) = _
      rw [hnext]
    constructor
    · intro i hi
      rw [hres]
      match i with
      | 0 =>
        have hframe : ∀ j, p 0 + 42 ≤ j → j < p 0 + 42 + 4 →
            fixLoop L k (patchRec L b (p 0)) (p 1) j = patchRec L b (p 0) j := by
          intro j hj1 hj2
          apply hih.2 j
          intro i' hi'
          left
          have := hgap (i' + 1) (by omega) (by omega)
          omega
        rw [readUint32_congr (patchRec L b (p 0)) _ (p 0 + 42) hframe]
        exact patchRec_get L b (p 0)
      | m + 1 =>
        have h1 := hih.1 m (by omega)
        rw [h1, hreadhigh (m + 1) (by omega) (by omega)]
    · intro j hj
      rw [hres]
      have h1 : fixLoop L k (patchRec L b (p 0)) (p 1) j = patchRec L b (p 0) j := by
        apply hih.2 j
        intro i hi
        exact hj (i + 1) (by omega)
      rw [h1]
      rcases hj 0 (by omega) with hl | hr
      · exact patchRec_frame L b (p 0) j (Or.inl hl)
      · exact patchRec_frame L b (p 0) j (Or.inr hr)

theorem fixLoopTrace_spec (L : Nat) :
    ∀ (k : Nat) (b : Buf) (p : Nat → Nat),
      (∀ i, i < k → p (i + 1) = p i + fhRecordSize b (p i)) →
      (∀ i, i < k → p i + fhRecordSize b (p i) < 4294967296) →
      fixLoopTrace L k b (p 0) = (List.range k).map p := by
  intro k
  induction k with
  | zero =>
    intro b p _ _
    rfl
  | succ k ih =>
    intro b p hchain hwrap
    have hgap : ∀ i, 1 ≤ i → i ≤ k + 1 → p 0 + 46 ≤ p i :=
      chain_gap b p (k + 1) hchain
    have hsz0 : fhRecordSize (patchRec L b (p 0)) (p 0) = fhRecordSize b (p 0) := by
      apply fhRecordSize_congr
      intro j hj1 hj2
      exact patchRec_frame L b (p 0) j (by omega)
    have hnext : ((p 0 + fhRecordSize (patchRec L b (p 0)) (p 0)) % 4294967296) = p 1 := by
      rw [hsz0]
      have h1 : p 1 = p 0 + fhRecordSize b (p 0) := hchain 0 (by omega)
      have h2 := hwrap 0 (by omega)
      rw [← h1]
      exact Nat.mod_eq_of_lt (by omega)
    have hszhigh : ∀ i, 1 ≤ i → i ≤ k + 1 →
        fhRecordSize (patchRec L b (p 0)) (p i) = fhRecordSize b (p i) := by
      intro i h1 h2
      apply fhRecordSize_congr
      intro j hj1 hj2
      have := hgap i h1 h2
      exact patchRec_frame L b (p 0) j (by omega)
    have hchain' : ∀ i, i < k →
        p (i + 1 + 1) = p (i + 1) + fhRecordSize (patchRec L b (p 0)) (p (i + 1)) := by
      intro i hi
      rw [hszhigh (i + 1) (by omega) (by omega)]
      exact hchain (i + 1) (by omega)
    have hwrap' : ∀ i, i < k →
        p (i + 1) + fhRecordSize (patchRec L b (p 0)) (p (i + 1)) < 4294967296 := by
      intro i hi
      rw [hszhigh (i + 1) (by omega) (by omega)]
      exact hwrap (i + 1) (by omega)
    have hih : fixLoopTrace L k (patchRec L b (p 0)) (p 1)
        = (List.range k).map (fun i => p (i + 1)) :=
      ih (patchRec L b (p 0)) (fun i => p (i + 1)) hchain' hwrap'
    show p 0 :: fixLoopTrace L k (patchRec L b (p 0))
        ((p 0 + fhRecordSize (patchRec L b (p 0)) (p 0)) % 4294967296)
      = (List.range (k + 1)).map p
    rw [hnext]
    have hrange : (List.range (k + 1)).map p
        = p 0 :: (List.range k).map (fun i => p (i + 1)) := by
      rw [List.range_succ_eq_map, List.map_cons, List.map_map]
      rfl
    rw [hrange, hih]

/-! ## Correctness of fixOffsets under ZipWF -/

theorem fixOffsets_spec (b : Buf) (L len eocd : Nat) (hwf : ZipWF b L len eocd) :
    ∃ b', fixOffsets L b len = Except.ok b' ∧
      readUint32 b' (eocd + 16) = zipStart b eocd + L ∧
      (∀ i, i < zipN b eocd →
        readUint32 b' (cdPos b L eocd i + 42)
          = readUint32 b (cdPos b L eocd i + 42) + L) ∧
      (∀ j, (j < eocd + 16 ∨ eocd + 20 ≤ j) →
        (∀ i, i < zipN b eocd → j < cdPos b L eocd i + 42 ∨ cdPos b L eocd i + 46 ≤ j) →
        b' j = b j) := by
  have hfind : findEocdOffset b len = some eocd := by
    unfold findEocdOffset
    exact findEocdLoop_eq b eocd hwf.one (len - 4) (by have := hwf.end_le; omega)
      hwf.sig (fun j hj hej => hwf.nosig j hj hej)
  have hfit46 : ∀ i, i < zipN b eocd → cdPos b L eocd i + 46 ≤ eocd := by
    intro i hi
    have h1 := hwf.fit i hi
    have h2 := fhRecordSize_ge b (cdPos b L eocd i)
    omega
  have hb1frame : ∀ j, j < eocd + 16 ∨ eocd + 20 ≤ j →
      putUint32 b (eocd + 16) ((readUint32 b (eocd + 16) + L) % 4294967296) j = b j := by
    intro j hj
    exact putUint32_frame _ _ _ _ (by omega)
  have hb1sz : ∀ i, i < zipN b eocd →
      fhRecordSize (putUint32 b (eocd + 16) ((readUint32 b (eocd + 16) + L) % 4294967296))
        (cdPos b L eocd i) = fhRecordSize b (cdPos b L eocd i) := by
    intro i hi
    apply fhRecordSize_congr
    intro j hj1 hj2
    have := hfit46 i hi
    exact hb1frame j (by omega)
  have hb1read : ∀ i, i < zipN b eocd →
      readUint32 (putUint32 b (eocd + 16) ((readUint32 b (eocd + 16) + L) % 4294967296))
        (cdPos b L eocd i + 42) = readUint32 b (cdPos b L eocd i + 42) := by
    intro i hi
    apply readUint32_congr
    intro j hj1 hj2
    have := hfit46 i hi
    exact hb1frame j (by omega)
  have hchain1 : ∀ i, i < zipN b eocd →
      cdPos b L eocd (i + 1) = cdPos b L eocd i
        + fhRecordSize (putUint32 b (eocd + 16) ((readUint32 b (eocd + 16) + L) % 4294967296))
            (cdPos b L eocd i) := by
    intro i hi
    rw [hb1sz i hi]
    exact recPosAux_succ b (L + zipStart b eocd) i
  have hwrap1 : ∀ i, i < zipN b eocd →
      cdPos b L eocd i
        + fhRecordSize (putUint32 b (eocd + 16) ((readUint32 b (eocd + 16) + L) % 4294967296))
            (cdPos b L eocd i) < 4294967296 := by
    intro i hi
    rw [hb1sz i hi]
    have h1 := hwf.fit i hi
    have h2 := hwf.lt32
    omega
  have hspec := fixLoop_spec L (zipN b eocd)
      (putUint32 b (eocd + 16) ((readUint32 b (eocd + 16) + L) % 4294967296))
      (cdPos b L eocd) hchain1 hwrap1
  have hs : ((readUint32 b (eocd + 16) + L) % 4294967296) = cdPos b L eocd 0 := by
    show _ = L + zipStart b eocd
    have h1 := hwf.start32
    unfold zipStart at h1 ⊢
    omega
  rw [← hs] at hspec
  refine ⟨fixLoop L (zipN b eocd)
      (putUint32 b (eocd + 16) ((readUint32 b (eocd + 16) + L) % 4294967296))
      ((readUint32 b (eocd + 16) + L) % 4294967296), ?_, ?_, ?_, ?_⟩
  · unfold fixOffsets
    rw [hfind]
    rfl
  · have hframe : ∀ j, eocd + 16 ≤ j → j < eocd + 16 + 4 →
        fixLoop L (zipN b eocd)
          (putUint32 b (eocd + 16) ((readUint32 b (eocd + 16) + L) % 4294967296))
          ((readUint32 b (eocd + 16) + L) % 4294967296) j
        = putUint32 b (eocd + 16) ((readUint32 b (eocd + 16) + L) % 4294967296) j := by
      intro j hj1 hj2
      apply hspec.2 j
      intro i hi
      right
      have := hfit46 i hi
      omega
    rw [readUint32_congr _ _ (eocd + 16) hframe, putUint32_get]
    have h1 := hwf.start32
    unfold zipStart at h1 ⊢
    omega
  · intro i hi
    have h1 := hspec.1 i hi
    rw [h1, hb1read i hi]
    have h2 := hwf.off32 i hi
    omega
  · intro j hj1 hj2
    have h1 := hspec.2 j hj2
    rw [h1]
    exact hb1frame j hj1

theorem fixOffsetsTrace_spec (b : Buf) (L len eocd : Nat) (hwf : ZipWF b L len eocd) :
    fixOffsetsTrace L b len
      = Except.ok ((List.range (zipN b eocd)).map (cdPos b L eocd)) := by
  have hfind : findEocdOffset b len = some eocd := by
    unfold findEocdOffset
    exact findEocdLoop_eq b eocd hwf.one (len - 4) (by have := hwf.end_le; omega)
      hwf.sig (fun j hj hej => hwf.nosig j hj hej)
  have hfit46 : ∀ i, i < zipN b eocd → cdPos b L eocd i + 46 ≤ eocd := by
    intro i hi
    have h1 := hwf.fit i hi
    have h2 := fhRecordSize_ge b (cdPos b L eocd i)
    omega
  have hb1frame : ∀ j, j < eocd + 16 ∨ eocd + 20 ≤ j →
      putUint32 b (eocd + 16) ((readUint32 b (eocd + 16) + L) % 4294967296) j = b j := by
    intro j hj
    exact putUint32_frame _ _ _ _ (by omega)
  have hb1sz : ∀ i, i < zipN b eocd →
      fhRecordSize (putUint32 b (eocd + 16) ((readUint32 b (eocd + 16) + L) % 4294967296))
        (cdPos b L eocd i) = fhRecordSize b (cdPos b L eocd i) := by
    intro i hi
    apply fhRecordSize_congr
    intro j hj1 hj2
    have := hfit46 i hi
    exact hb1frame j (by omega)
  have hchain1 : ∀ i, i < zipN b eocd →
      cdPos b L eocd (i + 1) = cdPos b L eocd i
        + fhRecordSize (putUint32 b (eocd + 16) ((readUint32 b (eocd + 16) + L) % 4294967296))
            (cdPos b L eocd i) := by
    intro i hi
    rw [hb1sz i hi]
    exact recPosAux_succ b (L + zipStart b eocd) i
  have hwrap1 : ∀ i, i < zipN b eocd →
      cdPos b L eocd i
        + fhRecordSize (putUint32 b (eocd + 16) ((readUint32 b (eocd + 16) + L) % 4294967296))
            (cdPos b L eocd i) < 4294967296 := by
    intro i hi
    rw [hb1sz i hi]
    have h1 := hwf.fit i hi
    have h2 := hwf.lt32
    omega
  have htr : fixLoopTrace L (zipN b eocd)
      (putUint32 b (eocd + 16) ((readUint32 b (eocd + 16) + L) % 4294967296))
      (cdPos b L eocd 0)
      = (List.range (zipN b eocd)).map (cdPos b L eocd) :=
    fixLoopTrace_spec L (zipN b eocd)
      (putUint32 b (eocd + 16) ((readUint32 b (eocd + 16) + L) % 4294967296))
      (cdPos b L eocd) hchain1 hwrap1
  have hs : ((readUint32 b (eocd + 16) + L) % 4294967296) = cdPos b L eocd 0 := by
    show _ = L + zipStart b eocd
    have h1 := hwf.start32
    unfold zipStart at h1 ⊢
    omega
  rw [← hs] at htr
  unfold fixOffsetsTrace
  rw [hfind]
  show Except.ok (fixLoopTrace L (zipN b eocd)
      (putUint32 b (eocd + 16) ((readUint32 b (eocd + 16) + L) % 4294967296))
      ((readUint32 b (eocd + 16) + L) % 4294967296)) = _
  rw [htr]

/-! ## Relating the composite buffer to the bare archive -/

theorem toBuf_append_right (exe arch : List Nat) (i : Nat) :
    toBuf (exe ++ arch) (exe.length + i) = toBuf arch i := by
  unfold toBuf
  rw [List.getD_append_right]
  · congr 1
    omega
  · omega

theorem toBuf_append_left (exe arch : List Nat) (i : Nat) (hi : i < exe.length) :
    toBuf (exe ++ arch) i = toBuf exe i := by
  unfold toBuf
  rw [List.getD_append]
  exact hi

theorem readUint16_shift (exe arch : List Nat) (o : Nat) :
    readUint16 (toBuf (exe ++ arch)) (exe.length + o) = readUint16 (toBuf arch) o := by
  unfold readUint16
  rw [Nat.add_assoc exe.length o 1, toBuf_append_right, toBuf_append_right]

theorem readUint32_shift (exe arch : List Nat) (o : Nat) :
    readUint32 (toBuf (exe ++ arch)) (exe.length + o) = readUint32 (toBuf arch) o := by
  unfold readUint32
  rw [Nat.add_assoc exe.length o 1, Nat.add_assoc exe.length o 2,
    Nat.add_assoc exe.length o 3, toBuf_append_right, toBuf_append_right,
    toBuf_append_right, toBuf_append_right]

theorem fhRecordSize_shift (exe arch : List Nat) (o : Nat) :
    fhRecordSize (toBuf (exe ++ arch)) (exe.length + o) = fhRecordSize (toBuf arch) o := by
  unfold fhRecordSize
  rw [Nat.add_assoc exe.length o 28, Nat.add_assoc exe.length o 30,
    Nat.add_assoc exe.length o 32, readUint16_shift, readUint16_shift, readUint16_shift]

theorem recPosAux_shift (exe arch : List Nat) (h : Nat) :
    ∀ i, recPosAux (toBuf (exe ++ arch)) (exe.length + h) i
      = exe.length + recPosAux (toBuf arch) h i := by
  intro i
  induction i with
  | zero => rfl
  | succ m ih =>
    rw [recPosAux_succ, recPosAux_succ, ih, fhRecordSize_shift]
    omega

theorem zipN_shift (exe arch : List Nat) (e : Nat) :
    zipN (toBuf (exe ++ arch)) (exe.length + e) = zipN (toBuf arch) e := by
  unfold zipN
  rw [Nat.add_assoc exe.length e 10, readUint16_shift]

theorem zipStart_shift (exe arch : List Nat) (e : Nat) :
    zipStart (toBuf (exe ++ arch)) (exe.length + e) = zipStart (toBuf arch) e := by
  unfold zipStart
  rw [Nat.add_assoc exe.length e 16, readUint32_shift]

theorem cdPos_shift (exe arch : List Nat) (e : Nat) (i : Nat) :
    cdPos (toBuf (exe ++ arch)) exe.length (exe.length + e) i
      = exe.length + bareCdPos arch e i := by
  unfold cdPos bareCdPos
  rw [zipStart_shift]
  exact recPosAux_shift exe arch (zipStart (toBuf arch) e) i

/-! ## Claim theorems for the relocation pass -/

/-- C2: for every successfully finalized composite image built from an
executable of length len(E), each of the n entry-metadata records has its
entry-data offset field equal to its bare-archive value plus len(E), the
entry-metadata table start offset in the trailer equals its bare-archive
value plus len(E), and the relocation pass changes no other byte of the
composite buffer. -/
theorem fixOffsets_offset_invariant (exe arch : List Nat) (e : Nat)
    (hwf : ZipWF (toBuf (exe ++ arch)) exe.length (exe.length + arch.length)
      (exe.length + e)) :
    ∃ b', fixOffsets exe.length (toBuf (exe ++ arch)) (exe.length + arch.length)
        = Except.ok b' ∧
      readUint32 b' (exe.length + e + 16)
        = readUint32 (toBuf arch) (e + 16) + exe.length ∧
      (∀ i, i < zipN (toBuf arch) e →
        readUint32 b' (exe.length + bareCdPos arch e i + 42)
          = readUint32 (toBuf arch) (bareCdPos arch e i + 42) + exe.length) ∧
      (∀ j, (j < exe.length + e + 16 ∨ exe.length + e + 20 ≤ j) →
        (∀ i, i < zipN (toBuf arch) e →
          j < exe.length + bareCdPos arch e i + 42
            ∨ exe.length + bareCdPos arch e i + 46 ≤ j) →
        b' j = toBuf (exe ++ arch) j) := by
  obtain ⟨b', hrun, heocd, hrec, hframe⟩ :=
    fixOffsets_spec (toBuf (exe ++ arch)) exe.length (exe.length + arch.length)
      (exe.length + e) hwf
  have hzn := zipN_shift exe arch e
  have hzs := zipStart_shift exe arch e
  have hcd := cdPos_shift exe arch e
  refine ⟨b', hrun, ?_, ?_, ?_⟩
  · rw [heocd, hzs]
    rfl
  · intro i hi
    have hi' : i < zipN (toBuf (exe ++ arch)) (exe.length + e) := by
      rw [hzn]; exact hi
    have h1 := hrec i hi'
    rw [hcd i] at h1
    rw [h1]
    congr 1
    rw [Nat.add_assoc]
    exact readUint32_shift exe arch (bareCdPos arch e i + 42)
  · intro j hj1 hj2
    apply hframe j hj1
    intro i hi
    rw [hcd i]
    exact hj2 i (by rw [← hzn]; exact hi)

/-- C4: the relocation pass writes only inside the archive segment: for
every composite buffer exe ++ arch that satisfies ZipWF, fixOffsets
succeeds and the first len(exe) bytes of the result equal exe
byte-for-byte. -/
theorem composite_prefix_preserved (exe arch : List Nat) (e : Nat)
    (hwf : ZipWF (toBuf (exe ++ arch)) exe.length (exe.length + arch.length)
      (exe.length + e)) :
    ∃ b', fixOffsets exe.length (toBuf (exe ++ arch)) (exe.length + arch.length)
        = Except.ok b' ∧
      ∀ i, i < exe.length → b' i = toBuf exe i := by
  obtain ⟨b', hrun, heocd, hrec, hframe⟩ :=
    fixOffsets_spec (toBuf (exe ++ arch)) exe.length (exe.length + arch.length)
      (exe.length + e) hwf
  refine ⟨b', hrun, ?_⟩
  intro i hi
  have h1 : b' i = toBuf (exe ++ arch) i := by
    apply hframe i
    · left
      have := hwf.exe_le
      omega
    · intro i' hi'
      left
      have hmono : cdPos (toBuf (exe ++ arch)) exe.length (exe.length + e) 0
          ≤ cdPos (toBuf (exe ++ arch)) exe.length (exe.length + e) i' :=
        recPosAux_mono _ _ 0 i' (by omega)
      have h0 : cdPos (toBuf (exe ++ arch)) exe.length (exe.length + e) 0
          = exe.length + zipStart (toBuf (exe ++ arch)) (exe.length + e) := rfl
      omega
  rw [h1]
  exact toBuf_append_left exe arch i hi

/-- C7: in the relocation pass, after the trailer start-offset patch, the
record walk starts at the central directory table's original
(pre-relocation) archive-relative offset --- position len(E) + start within
the composite buffer, where start is the offset read from the trailer
before patching --- and each step advances by the fixed 46-byte header
size plus the filename, extra-field and comment lengths read at offsets
28, 30 and 32 of the current record. -/
theorem fixOffsets_walk_structure (exe arch : List Nat) (e : Nat)
    (hwf : ZipWF (toBuf (exe ++ arch)) exe.length (exe.length + arch.length)
      (exe.length + e)) :
    ∃ t, fixOffsetsTrace exe.length (toBuf (exe ++ arch)) (exe.length + arch.length)
        = Except.ok t ∧
      t.length = zipN (toBuf arch) e ∧
      (0 < zipN (toBuf arch) e →
        t.getD 0 0 = exe.length + zipStart (toBuf arch) e) ∧
      (∀ i, i + 1 < zipN (toBuf arch) e →
        t.getD (i + 1) 0 = t.getD i 0
          + (46 + readUint16 (toBuf (exe ++ arch)) (t.getD i 0 + 28)
              + readUint16 (toBuf (exe ++ arch)) (t.getD i 0 + 30)
              + readUint16 (toBuf (exe ++ arch)) (t.getD i 0 + 32))) := by
  have htrace := fixOffsetsTrace_spec (toBuf (exe ++ arch)) exe.length
    (exe.length + arch.length) (exe.length + e) hwf
  have hzn := zipN_shift exe arch e
  have hzs := zipStart_shift exe arch e
  have hget : ∀ i, i < zipN (toBuf (exe ++ arch)) (exe.length + e) →
      (((List.range (zipN (toBuf (exe ++ arch)) (exe.length + e))).map
        (cdPos (toBuf (exe ++ arch)) exe.length (exe.length + e))).getD i 0)
      = cdPos (toBuf (exe ++ arch)) exe.length (exe.length + e) i := by
    intro i hi
    rw [List.getD_eq_getElem?_getD, List.getElem?_map, List.getElem?_range hi]
    rfl
  refine ⟨(List.range (zipN (toBuf (exe ++ arch)) (exe.length + e))).map
      (cdPos (toBuf (exe ++ arch)) exe.length (exe.length + e)), htrace, ?_, ?_, ?_⟩
  · rw [List.length_map, List.length_range, hzn]
  · intro hpos
    rw [hget 0 (by omega)]
    show exe.length + zipStart (toBuf (exe ++ arch)) (exe.length + e) = _
    rw [hzs]
  · intro i hi
    have hi1 : i < zipN (toBuf (exe ++ arch)) (exe.length + e) := by omega
    have hi2 : i + 1 < zipN (toBuf (exe ++ arch)) (exe.length + e) := by omega
    rw [hget i hi1, hget (i + 1) hi2]
    rfl

/-! ## A concrete composite image (two entries) used by the witnesses -/

/-- Example executable bytes. -/
def exExe : List Nat := [17, 34, 51]

/-- Example bare archive bytes: two central directory records (the first
with a 1-byte filename, the second bare, with stored entry-data offsets 0
and 10) followed by an EOCD record announcing 2 records and central
directory start offset 0. -/
def exArch : List Nat :=
  [0,0,0,0,0,0,0,0,0,0,0,0,0,0,0,0,0,0,0,0,0,0,0,0,0,0,0,0,1,0,0,0,0,0,0,0,0,0,0,0,0,0,0,0,0,0,97,
   0,0,0,0,0,0,0,0,0,0,0,0,0,0,0,0,0,0,0,0,0,0,0,0,0,0,0,0,0,0,0,0,0,0,0,0,0,0,0,0,0,0,10,0,0,0,
   80,75,5,6,0,0,0,0,2,0,2,0,0,0,0,0,0,0,0,0,0,0]

theorem exWF : ZipWF (toBuf (exExe ++ exArch)) exExe.length
    (exExe.length + exArch.length) (exExe.length + 93) :=
  ⟨by decide, by decide, by decide, by decide, by decide, by decide,
   by decide, by decide, by decide⟩

/-- Witness for C2 at the concrete composite image: both record offset
fields and the trailer start offset get the executable length added. -/
theorem fixOffsets_offset_invariant_witness :
    ∃ b', fixOffsets exExe.length (toBuf (exExe ++ exArch))
        (exExe.length + exArch.length) = Except.ok b' ∧
      readUint32 b' (exExe.length + 93 + 16)
        = readUint32 (toBuf exArch) (93 + 16) + exExe.length ∧
      readUint32 b' (exExe.length + bareCdPos exArch 93 0 + 42)
        = readUint32 (toBuf exArch) (bareCdPos exArch 93 0 + 42) + exExe.length ∧
      readUint32 b' (exExe.length + bareCdPos exArch 93 1 + 42)
        = readUint32 (toBuf exArch) (bareCdPos exArch 93 1 + 42) + exExe.length := by
  obtain ⟨b', h1, h2, h3, h4⟩ := fixOffsets_offset_invariant exExe exArch 93 exWF
  exact ⟨b', h1, h2, h3 0 (by decide), h3 1 (by decide)⟩

/-- Witness for C4 at the concrete composite image: the three executable
bytes survive the relocation pass unchanged. -/
theorem composite_prefix_preserved_witness :
    ∃ b', fixOffsets exExe.length (toBuf (exExe ++ exArch))
        (exExe.length + exArch.length) = Except.ok b' ∧
      b' 0 = 17 ∧ b' 1 = 34 ∧ b' 2 = 51 := by
  obtain ⟨b', h1, h2⟩ := composite_prefix_preserved exExe exArch 93 exWF
  refine ⟨b', h1, ?_, ?_, ?_⟩
  · rw [h2 0 (by decide)]
    decide
  · rw [h2 1 (by decide)]
    decide
  · rw [h2 2 (by decide)]
    decide

/-- Witness for C7 at the concrete composite image: the walk visits the
two records at composite positions 3 and 50, stepping by 47 = 46 + the
1-byte filename length of the first record. -/
theorem fixOffsets_walk_structure_witness :
    ∃ t, fixOffsetsTrace exExe.length (toBuf (exExe ++ exArch))
        (exExe.length + exArch.length) = Except.ok t ∧
      t.length = 2 ∧
      t.getD 0 0 = exExe.length + zipStart (toBuf exArch) 93 ∧
      t.getD 1 0 = t.getD 0 0
        + (46 + readUint16 (toBuf (exExe ++ exArch)) (t.getD 0 0 + 28)
            + readUint16 (toBuf (exExe ++ exArch)) (t.getD 0 0 + 30)
            + readUint16 (toBuf (exExe ++ exArch)) (t.getD 0 0 + 32)) := by
  obtain ⟨t, h1, h2, h3, h4⟩ := fixOffsets_walk_structure exExe exArch 93 exWF
  refine ⟨t, h1, ?_, h3 (by decide), h4 0 (by decide)⟩
  rw [h2]
  decide

/-! ## Entry-level layer: the builder state machine

The zip writer is abstracted to the list of entries it has been asked to
create (spec section 8, generic-archive-tool compatibility: a reader of the
finalized archive lists exactly the entries that were added); collaborator
I/O outcomes are passed as explicit arguments. -/

/-- Outcome of a Go call: a value, a returned error, or a runtime panic. -/
inductive Res (α : Type) : Type
  | ok (a : α)
  | err (msg : String)
  | crash
deriving DecidableEq

/-- Sequencing of Go calls: errors and panics propagate. -/
def Res.bind {α β : Type} : Res α → (α → Res β) → Res β
  | .ok a, f => f a
  | .err e, _ => .err e
  | .crash, _ => .crash

/-- An archive entry: name and stored content. -/
abbrev Entry := String × String

/-- The reserved entry name holding the encoded map (mapFilename). -/
def mapFilename : String := ".bespoke.json"

/-- maxExecutableSize from the source: math.MaxUint32 / 2 in untyped
constant arithmetic, which truncates to 2147483647. -/
def maxExecutableSize : Nat := 4294967295 / 2

/-- The Bespoke builder state: the buffer holding the executable bytes
(the appended archive bytes are tracked at the byte level by fixOffsets
and at this level by the entry list), the entries created in the archive,
the recorded executable length and the finalized flag. -/
structure Bespoke where
  buffer : List Nat
  entries : List Entry
  exeLength : Nat
  finalized : Bool
deriving DecidableEq

/-- newBespoke from the source: copy the executable into the buffer (a
copy error is returned as is), fail if its length exceeds
maxExecutableSize, otherwise start with an empty archive, the recorded
length, and finalized = false. -/
def newBespoke (exe : List Nat) (copyErr : Option String) : Res Bespoke :=
  match copyErr with
  | some e => .err e
  | none =>
    if exe.length > maxExecutableSize then
      .err ("executables larger than 2^31 bytes not supported")
    else
      .ok ⟨exe, [], exe.length, false⟩

/-- addBuffer from the source: CreateHeader (an error is returned as is),
then Write, which reports (n, err); on err non-nil or a short write the
code builds the message "could not add to archive " ++ err.Error() ---
when err is nil this dereferences a nil error, a crash. On success the
entry is appended. -/
def Bespoke.addBuffer (b : Bespoke) (p : String) (filename : String)
    (createErr : Option String) (writeN : Nat) (writeErr : Option String) :
    Res Bespoke :=
  match createErr with
  | some e => .err e
  | none =>
    if writeErr.isSome ∨ writeN < p.length then
      match writeErr with
      | some e => .err ("could not add to archive " ++ e)
      | none => .crash
    else
      .ok ⟨b.buffer, b.entries ++ [(filename, p)], b.exeLength, b.finalized⟩

/-- path.Base of Go for the common cases used by addFile: the final
non-empty path segment; "/" for all-slash paths, "." for the empty path. -/
def pathBase (p : String) : String :=
  match ((p.splitOn ("/")).filter (fun s => s ≠ "")).getLast? with
  | some s => s
  | none => if p = "" then "." else "/"

/-- addFile from the source: read the file (ioutil.ReadFile outcome passed
in), then addBuffer under the base name of the path. -/
def Bespoke.addFile (b : Bespoke) (p : String) (fileRes : Except String String)
    (createErr : Option String) (writeN : Nat) (writeErr : Option String) :
    Res Bespoke :=
  match fileRes with
  | .error e => .err e
  | .ok content => b.addBuffer content (pathBase p) createErr writeN writeErr

/-- finalize from the source: archive.Close (error returned as is), then
fixOffsets (its byte-level behaviour is fixOffsets above; here only its
success or failure is needed), then set finalized := true. -/
def Bespoke.finalize (b : Bespoke) (closeErr fixErr : Option String) :
    Res Bespoke :=
  match closeErr with
  | some e => .err e
  | none =>
    match fixErr with
    | some e => .err e
    | none => .ok ⟨b.buffer, b.entries, b.exeLength, true⟩

/-- Read from the source: panic when the builder is not finalized,
otherwise read from the buffer. -/
def Bespoke.Read (b : Bespoke) : Res (List Nat) :=
  if b.finalized = false then .crash
  else .ok b.buffer

/-- WithDir, from the earlier revisions of the package in
src/unnamed/part_001 and part_002 (absent from the current src/bespoke.go):
the body is exactly `return nil, nil`, modelled as a pair of a nil builder
and a nil error. -/
def WithDir (exe : List Nat) (dirPath : String) :
    Option Bespoke × Option String :=
  (none, none)

/-- readFile from the source: linear scan of the archive entry list for
the first exact name match; error "file not found in archive" otherwise.
Opening and fully reading the matched entry is the zip reader collaborator
and is modelled as returning the stored content. -/
def readFile : List Entry → String → Res String
  | [], _ => .err ("file not found in archive")
  | (n, c) :: rest, name => if n = name then .ok c else readFile rest name

/-- ReadFile from the source, modelled against the entry list of the
running composite image (openSelf is the self-location collaborator): the
source calls readFile with mapFilename, not with its name argument. -/
def ReadFile (entries : List Entry) (name : String) : Res String :=
  readFile entries mapFilename

/-! ## Payload codec

Modelled from the spec: the Payload Codec (Go's encoding/json applied to a
map of strings to strings, whose source is not part of this repository) is
specified in section 4.1 as a deterministic byte encoding of a
string-to-string mapping with Decode the inverse of Encode. It is modelled
here as a JSON-style object encoder over an association list (the
unordered Go map) with escaping of the quote and backslash characters, and
a recursive-descent decoder. -/

/-- The JSON quote character. -/
def qmark : Char := Char.ofNat 34

/-- The JSON escape (backslash) character. -/
def bslash : Char := Char.ofNat 92

/-- Opening brace of a JSON object. -/
def lbrace : Char := Char.ofNat 123

/-- Closing brace of a JSON object. -/
def rbrace : Char := Char.ofNat 125

/-- Escape one character of a JSON string. -/
def escapeChar (c : Char) : List Char :=
  if c = qmark ∨ c = bslash then [bslash, c] else [c]

/-- Escape the characters of a JSON string body. -/
def escapeChars (cs : List Char) : List Char := cs.flatMap escapeChar

/-- Render a JSON string with its surrounding quotes. -/
def renderString (s : String) : List Char :=
  qmark :: (escapeChars s.data ++ [qmark])

/-- Render one key-value member of a JSON object. -/
def renderPair (p : String × String) : List Char :=
  renderString p.1 ++ ':' :: renderString p.2

/-- Render the comma-separated members of a JSON object. -/
def renderMembers : List (String × String) → List Char
  | [] => []
  | [p] => renderPair p
  | p :: ps => renderPair p ++ ',' :: renderMembers ps

/-- Encode a mapping as a JSON object. -/
def jsonEncode (m : List (String × String)) : String :=
  String.mk (lbrace :: (renderMembers m ++ [rbrace]))

/-- Parse a JSON string body up to its closing quote, undoing escapes;
returns the body and the rest of the input. -/
def parseStringAux : List Char → Option (List Char × List Char)
  | [] => none
  | c :: rest =>
    if c = qmark then some ([], rest)
    else if c = bslash then
      match rest with
      | [] => none
      | d :: rest2 =>
        match parseStringAux rest2 with
        | none => none
        | some (s, r) => some (d :: s, r)
    else
      match parseStringAux rest with
      | none => none
      | some (s, r) => some (c :: s, r)

/-- Parse a JSON string including its opening quote. -/
def parseString : List Char → Option (String × List Char)
  | [] => none
  | c :: rest =>
    if c = qmark then
      match parseStringAux rest with
      | none => none
      | some (s, r) => some (String.mk s, r)
    else none

/-- Parse one key-value member of a JSON object. -/
def parsePair (l : List Char) : Option ((String × String) × List Char) :=
  match parseString l with
  | none => none
  | some (k, r1) =>
    match r1 with
    | [] => none
    | c :: r2 =>
      if c = ':' then
        match parseString r2 with
        | none => none
        | some (v, r3) => some ((k, v), r3)
      else none

/-- Parse the members of a nonempty JSON object up to and including its
closing brace; fuel bounds the recursion by the input length. -/
def parseMembersAux : Nat → List Char → Option (List (String × String) × List Char)
  | 0, _ => none
  | fuel + 1, l =>
    match parsePair l with
    | none => none
    | some (p, r) =>
      match r with
      | [] => none
      | c :: r2 =>
        if c = ',' then
          match parseMembersAux fuel r2 with
          | none => none
          | some (ps, r3) => some (p :: ps, r3)
        else if c = rbrace then some ([p], r2)
        else none

/-- Decode a JSON object into a mapping; fails on anything else. -/
def jsonDecode (s : String) : Option (List (String × String)) :=
  match s.data with
  | [] => none
  | c :: rest =>
    if c = lbrace then
      match rest with
      | [] => none
      | d :: rest2 =>
        if d = rbrace then (if rest2 = [] then some [] else none)
        else
          match parseMembersAux rest.length rest with
          | none => none
          | some (m, r) => if r = [] then some m else none
    else none

/-! ## Codec round trip -/

theorem parseStringAux_nil_qmark (r : List Char) :
    parseStringAux (qmark :: r) = some ([], r) := by
  cases r with
  | nil => simp only [parseStringAux, if_true]
  | cons d t => simp only [parseStringAux, if_true]

theorem parseStringAux_cons_esc (c : Char) (t : List Char) :
    parseStringAux (bslash :: c :: t)
      = match parseStringAux t with
        | none => none
        | some (s, r) => some (c :: s, r) := rfl

theorem parseStringAux_cons_plain (c : Char) (t : List Char)
    (h1 : ¬ c = qmark) (h2 : ¬ c = bslash) :
    parseStringAux (c :: t)
      = match parseStringAux t with
        | none => none
        | some (s, r) => some (c :: s, r) := by
  cases t with
  | nil =>
    simp only [parseStringAux]
    rw [if_neg h1, if_neg h2]
  | cons d t2 =>
    simp only [parseStringAux]
    rw [if_neg h1, if_neg h2]

theorem parseStringAux_round : ∀ (cs r : List Char),
    parseStringAux (escapeChars cs ++ qmark :: r) = some (cs, r) := by
  intro cs
  induction cs with
  | nil =>
    intro r
    show parseStringAux (qmark :: r) = some ([], r)
    exact parseStringAux_nil_qmark r
  | cons c cs ih =>
    intro r
    by_cases hesc : c = qmark ∨ c = bslash
    · have he : escapeChars (c :: cs) ++ qmark :: r
          = bslash :: c :: (escapeChars cs ++ qmark :: r) := by
        unfold escapeChars
        rw [List.flatMap_cons]
        unfold escapeChar
        rw [if_pos hesc]
        rfl
      rw [he, parseStringAux_cons_esc, ih r]
    · have he : escapeChars (c :: cs) ++ qmark :: r
          = c :: (escapeChars cs ++ qmark :: r) := by
        unfold escapeChars
        rw [List.flatMap_cons]
        unfold escapeChar
        rw [if_neg hesc]
        rfl
      rw [he, parseStringAux_cons_plain c _ (fun h => hesc (Or.inl h))
        (fun h => hesc (Or.inr h)), ih r]

theorem parseString_round (s : String) (r : List Char) :
    parseString (renderString s ++ r) = some (s, r) := by
  have he : renderString s ++ r = qmark :: (escapeChars s.data ++ (qmark :: r)) := by
    unfold renderString
    simp [List.append_assoc]
  rw [he]
  simp only [parseString, if_true]
  rw [parseStringAux_round s.data r]

theorem parsePair_round (p : String × String) (r : List Char) :
    parsePair (renderPair p ++ r) = some (p, r) := by
  obtain ⟨k, v⟩ := p
  have he : renderPair (k, v) ++ r
      = renderString k ++ (':' :: (renderString v ++ r)) := by
    unfold renderPair
    simp [List.append_assoc]
  rw [he]
  simp only [parsePair]
  rw [parseString_round k (':' :: (renderString v ++ r))]
  simp only [eq_self_iff_true, if_true]
  rw [parseString_round v r]

theorem parseMembersAux_round : ∀ (m : List (String × String)) (r : List Char)
    (fuel : Nat), m ≠ [] → m.length ≤ fuel →
    parseMembersAux fuel (renderMembers m ++ rbrace :: r) = some (m, r) := by
  intro m
  induction m with
  | nil =>
    intro r fuel hne _
    exact absurd rfl hne
  | cons p ps ih =>
    intro r fuel _ hlen
    have hfuel1 : 1 ≤ fuel := by
      simp only [List.length_cons] at hlen
      omega
    obtain ⟨f, rfl⟩ : ∃ f, fuel = f + 1 := ⟨fuel - 1, by omega⟩
    have hcm : (rbrace = ',') = False := eq_false (by decide)
    cases ps with
    | nil =>
      show parseMembersAux (f + 1) (renderPair p ++ rbrace :: r) = some ([p], r)
      simp only [parseMembersAux]
      rw [parsePair_round p (rbrace :: r)]
      simp only [hcm, if_false, eq_self_iff_true, if_true]
    | cons q qs =>
      have he : renderMembers (p :: q :: qs) ++ rbrace :: r
          = renderPair p ++ (',' :: (renderMembers (q :: qs) ++ rbrace :: r)) := by
        show (renderPair p ++ ',' :: renderMembers (q :: qs)) ++ rbrace :: r = _
        simp [List.append_assoc]
      rw [he]
      simp only [parseMembersAux]
      rw [parsePair_round p (',' :: (renderMembers (q :: qs) ++ rbrace :: r))]
      simp only [eq_self_iff_true, if_true]
      have hlen2 : (q :: qs).length ≤ f := by
        simp only [List.length_cons] at hlen ⊢
        omega
      rw [ih r f (List.cons_ne_nil q qs) hlen2]

theorem renderMembers_length (m : List (String × String)) :
    m.length ≤ (renderMembers m).length + 1 := by
  induction m with
  | nil => simp
  | cons p ps ih =>
    cases ps with
    | nil => simp [renderMembers]
    | cons q qs =>
      show (p :: q :: qs).length
        ≤ (renderPair p ++ ',' :: renderMembers (q :: qs)).length + 1
      simp only [List.length_cons, List.length_append] at ih ⊢
      omega

theorem jsonDecode_encode (m : List (String × String)) :
    jsonDecode (jsonEncode m) = some m := by
  cases m with
  | nil => decide
  | cons p ps =>
    have hhead : ∃ t, renderMembers (p :: ps) = qmark :: t := by
      cases ps with
      | nil =>
        refine ⟨(escapeChars p.1.data ++ [qmark]) ++ (':' :: renderString p.2), ?_⟩
        show renderPair p = _
        unfold renderPair renderString
        simp [List.append_assoc]
      | cons q qs =>
        refine ⟨((escapeChars p.1.data ++ [qmark]) ++ (':' :: renderString p.2))
          ++ (',' :: renderMembers (q :: qs)), ?_⟩
        show renderPair p ++ ',' :: renderMembers (q :: qs) = _
        unfold renderPair renderString
        simp [List.append_assoc]
    obtain ⟨t, ht⟩ := hhead
    have he : jsonEncode (p :: ps)
        = String.mk (lbrace :: (qmark :: (t ++ [rbrace]))) := by
      unfold jsonEncode
      rw [ht]
      rfl
    rw [he]
    have hqr : (qmark = rbrace) = False := eq_false (by decide)
    simp only [jsonDecode, eq_self_iff_true, if_true, hqr, if_false]
    have hback : qmark :: (t ++ [rbrace])
        = renderMembers (p :: ps) ++ rbrace :: ([]) := by
      rw [ht]
      rfl
    rw [hback]
    have hfuel : (p :: ps).length
        ≤ (renderMembers (p :: ps) ++ rbrace :: ([])).length := by
      have h1 := renderMembers_length (p :: ps)
      simp only [List.length_append, List.length_cons, List.length_nil] at h1 ⊢
      omega
    rw [parseMembersAux_round (p :: ps) [] _ (List.cons_ne_nil p ps) hfuel]
    simp

/-! ## The build and read pipelines -/

/-- Map from the source: locate and open the running image (collaborators),
read the reserved map entry through readFile, then decode the payload
(json.Unmarshal, modelled by jsonDecode). -/
def Map (entries : List Entry) : Res (List (String × String)) :=
  (readFile entries mapFilename).bind fun content =>
    match jsonDecode content with
    | some m => .ok m
    | none => .err ("invalid json payload")

/-- WithMap from the source: marshal the map (never fails for a map of
strings), newBespoke, addBuffer under the reserved name, finalize. -/
def WithMap (exe : List Nat) (data : List (String × String))
    (copyErr createErr : Option String) (writeN : Nat)
    (writeErr closeErr fixErr : Option String) : Res Bespoke :=
  (newBespoke exe copyErr).bind fun b =>
    (b.addBuffer (jsonEncode data) mapFilename createErr writeN writeErr).bind fun b2 =>
      b2.finalize closeErr fixErr

/-- WithFile from the source: newBespoke, addFile, finalize. -/
def WithFile (exe : List Nat) (filePath : String) (copyErr : Option String)
    (fileRes : Except String String) (createErr : Option String) (writeN : Nat)
    (writeErr closeErr fixErr : Option String) : Res Bespoke :=
  (newBespoke exe copyErr).bind fun b =>
    (b.addFile filePath fileRes createErr writeN writeErr).bind fun b2 =>
      b2.finalize closeErr fixErr

theorem Res.bind_ok_inv {α β : Type} (x : Res α) (f : α → Res β) (b : β)
    (h : x.bind f = .ok b) : ∃ a, x = .ok a ∧ f a = .ok b := by
  cases x with
  | ok a => exact ⟨a, rfl, h⟩
  | err e => simp [Res.bind] at h
  | crash => simp [Res.bind] at h

/-! ## Claim theorems for the entry-level layer -/

/-- C1: the source of ReadFile passes the reserved map filename to
readFile instead of its name argument, so on an image whose entries hold
the reserved map entry, ReadFile of an absent name returns the map content
instead of failing with the not-found error, and on an image built from a
single named file, ReadFile of exactly that name fails with the not-found
error. This contradicts the documented behaviour of ReadFile. -/
theorem readFile_ignores_requested_name :
    ReadFile [(mapFilename, "MAPDATA")] ("does-not-exist") = Res.ok ("MAPDATA")
    ∧ ReadFile [(("config.txt" : String), ("PAYLOAD" : String))] ("config.txt")
        = Res.err ("file not found in archive") :=
  ⟨by decide, by decide⟩

/-- C3: whenever WithMap succeeds, reading the reserved entry back through
the Map pipeline returns exactly the mapping that was encoded. -/
theorem withMap_readMap_roundtrip (exe : List Nat) (m : List (String × String))
    (copyErr createErr : Option String) (writeN : Nat)
    (writeErr closeErr fixErr : Option String) (b : Bespoke)
    (hnd : (m.map Prod.fst).Nodup)
    (hok : WithMap exe m copyErr createErr writeN writeErr closeErr fixErr
      = Res.ok b) :
    Map b.entries = Res.ok m := by
  unfold WithMap at hok
  obtain ⟨b1, hb1, hok2⟩ := Res.bind_ok_inv _ _ _ hok
  obtain ⟨b2, hb2, hok3⟩ := Res.bind_ok_inv _ _ _ hok2
  have hent1 : b1.entries = [] := by
    unfold newBespoke at hb1
    cases copyErr with
    | some e => simp at hb1
    | none =>
      by_cases hlen : exe.length > maxExecutableSize
      · rw [if_pos hlen] at hb1
        simp at hb1
      · rw [if_neg hlen] at hb1
        cases hb1
        rfl
  have hent2 : b2.entries = b1.entries ++ [(mapFilename, jsonEncode m)] := by
    unfold Bespoke.addBuffer at hb2
    cases createErr with
    | some e => simp at hb2
    | none =>
      by_cases hw : (writeErr.isSome ∨ writeN < (jsonEncode m).length)
      · rw [if_pos hw] at hb2
        cases writeErr with
        | some e => simp at hb2
        | none => simp at hb2
      · rw [if_neg hw] at hb2
        cases hb2
        rfl
  have hent3 : b.entries = b2.entries := by
    unfold Bespoke.finalize at hok3
    cases closeErr with
    | some e => simp at hok3
    | none =>
      cases fixErr with
      | some e => simp at hok3
      | none =>
        cases hok3
        rfl
  rw [hent3, hent2, hent1]
  show Map ([] ++ [(mapFilename, jsonEncode m)]) = Res.ok m
  rw [List.nil_append]
  unfold Map
  simp only [readFile, eq_self_iff_true, if_true]
  simp only [Res.bind]
  rw [jsonDecode_encode m]

/-- Witness for C3 at a concrete build: a two-key mapping survives the
round trip through a successful WithMap build. -/
theorem withMap_readMap_roundtrip_witness :
    ∃ b, WithMap [1] [("k1", "v1"), ("k2", "v2")] none none
        (jsonEncode [("k1", "v1"), ("k2", "v2")]).length none none none
      = Res.ok b ∧
      Map b.entries = Res.ok [("k1", "v1"), ("k2", "v2")] := by
  have h : WithMap [1] [("k1", "v1"), ("k2", "v2")] none none
      (jsonEncode [("k1", "v1"), ("k2", "v2")]).length none none none
      = Res.ok ⟨[1], [(mapFilename, jsonEncode [("k1", "v1"), ("k2", "v2")])], 1, true⟩ := by
    decide
  exact ⟨_, h, withMap_readMap_roundtrip [1] [("k1", "v1"), ("k2", "v2")]
    none none _ none none none _ (by decide) h⟩

/-- C5: newBespoke accepts an executable exactly when its length is at
most 2147483647 = floor(MaxUint32 / 2): at most that length it succeeds
with an empty entry list (the check happens at Start, before any entry is
written), one byte more fails with the too-large error, and an oversized
executable makes the whole WithMap pipeline fail with that error before
any entry is added. -/
theorem newBespoke_size_boundary :
    (∀ exe : List Nat, exe.length ≤ 2147483647 →
      newBespoke exe none = Res.ok ⟨exe, [], exe.length, false⟩)
    ∧ (∀ exe : List Nat, 2147483647 < exe.length →
      newBespoke exe none
        = Res.err ("executables larger than 2^31 bytes not supported"))
    ∧ (∀ (exe : List Nat) (m : List (String × String)) (createErr : Option String)
        (writeN : Nat) (writeErr closeErr fixErr : Option String),
        2147483647 < exe.length →
        WithMap exe m none createErr writeN writeErr closeErr fixErr
          = Res.err ("executables larger than 2^31 bytes not supported")) := by
  refine ⟨?_, ?_, ?_⟩
  · intro exe h
    unfold newBespoke
    rw [if_neg (by unfold maxExecutableSize; omega)]
  · intro exe h
    unfold newBespoke
    rw [if_pos (by unfold maxExecutableSize; omega)]
  · intro exe m createErr writeN writeErr closeErr fixErr h
    unfold WithMap newBespoke
    rw [if_pos (by unfold maxExecutableSize; omega)]
    rfl

/-- Witness for C5: a one-byte executable is accepted with no entries
written, and an executable of length 2147483648 is rejected, both directly
and through WithMap. -/
theorem newBespoke_size_boundary_witness :
    newBespoke [7] none = Res.ok ⟨[7], [], 1, false⟩
    ∧ newBespoke (List.replicate 2147483648 0) none
        = Res.err ("executables larger than 2^31 bytes not supported")
    ∧ WithMap (List.replicate 2147483648 0) [] none none 0 none none none
        = Res.err ("executables larger than 2^31 bytes not supported") := by
  have hlen : 2147483647 < (List.replicate 2147483648 (0 : Nat)).length := by
    rw [List.length_replicate]
    omega
  exact ⟨newBespoke_size_boundary.1 [7] (by decide),
    newBespoke_size_boundary.2.1 _ hlen,
    newBespoke_size_boundary.2.2 _ [] none 0 none none none hlen⟩

/-- C6: the error branch of addBuffer taken on a reported write error or a
short write builds its message from err.Error(); with a non-nil error the
EntryWriteFailure message is returned, but a short write reported with a
nil error dereferences the nil error: a crash, not a returned error. -/
theorem addBuffer_short_write_crash :
    Bespoke.addBuffer ⟨[1], [], 1, false⟩ ("x") ("f.txt") none 0 none = Res.crash
    ∧ Bespoke.addBuffer ⟨[1], [], 1, false⟩ ("x") ("f.txt") none 0 (some ("disk full"))
        = Res.err ("could not add to archive disk full") :=
  ⟨by decide, by decide⟩

/-- C8 counterexample: WithDir is present in the package surface of the
src/unnamed revisions and returns a nil error (and a nil builder), so it
does not fail. -/
theorem withDir_nil_error :
    WithDir [1, 2, 3] ("dir") = (none, none) := rfl

/-- C8 amended: WithDir always returns a nil builder together with a nil
error; it never produces a usable builder and never reports failure. -/
theorem withDir_returns_nil_nil (exe : List Nat) (dirPath : String) :
    WithDir exe dirPath = (none, none) := rfl

/-- C9: Read on a non-finalized builder is the assertion-style panic, and
Read on a finalized builder returns the buffer bytes without panicking. -/
theorem read_finalized_contract (b : Bespoke) :
    (b.finalized = false → b.Read = Res.crash)
    ∧ (b.finalized = true → b.Read = Res.ok b.buffer) := by
  constructor
  · intro h
    unfold Bespoke.Read
    rw [if_pos h]
  · intro h
    unfold Bespoke.Read
    rw [if_neg (by rw [h]; simp)]

/-- Witness for C9 at concrete builders in both states. -/
theorem read_finalized_contract_witness :
    Bespoke.Read ⟨[5], [], 1, false⟩ = Res.crash
    ∧ Bespoke.Read ⟨[5], [], 1, true⟩ = Res.ok [5] :=
  ⟨(read_finalized_contract ⟨[5], [], 1, false⟩).1 rfl,
   (read_finalized_contract ⟨[5], [], 1, true⟩).2 rfl⟩

/-- C10: every builder returned successfully by WithMap or WithFile has
finalized = true, for every combination of collaborator outcomes, so a
caller holding only such builders can never hit the Read panic. -/
theorem builders_finalized :
    (∀ (exe : List Nat) (m : List (String × String))
      (copyErr createErr : Option String) (writeN : Nat)
      (writeErr closeErr fixErr : Option String) (b : Bespoke),
      WithMap exe m copyErr createErr writeN writeErr closeErr fixErr = Res.ok b →
      b.finalized = true)
    ∧ (∀ (exe : List Nat) (filePath : String) (copyErr : Option String)
      (fileRes : Except String String) (createErr : Option String) (writeN : Nat)
      (writeErr closeErr fixErr : Option String) (b : Bespoke),
      WithFile exe filePath copyErr fileRes createErr writeN writeErr closeErr fixErr
        = Res.ok b →
      b.finalized = true) := by
  have hfin : ∀ (x : Bespoke) (c f : Option String) (b : Bespoke),
      x.finalize c f = Res.ok b → b.finalized = true := by
    intro x c f b h
    unfold Bespoke.finalize at h
    cases c with
    | some e => simp at h
    | none =>
      cases f with
      | some e => simp at h
      | none =>
        cases h
        rfl
  constructor
  · intro exe m copyErr createErr writeN writeErr closeErr fixErr b hok
    unfold WithMap at hok
    obtain ⟨b1, hb1, hok2⟩ := Res.bind_ok_inv _ _ _ hok
    obtain ⟨b2, hb2, hok3⟩ := Res.bind_ok_inv _ _ _ hok2
    exact hfin b2 closeErr fixErr b hok3
  · intro exe filePath copyErr fileRes createErr writeN writeErr closeErr fixErr b hok
    unfold WithFile at hok
    obtain ⟨b1, hb1, hok2⟩ := Res.bind_ok_inv _ _ _ hok
    obtain ⟨b2, hb2, hok3⟩ := Res.bind_ok_inv _ _ _ hok2
    exact hfin b2 closeErr fixErr b hok3

/-- Witness for C10: a concrete successful WithMap build carries
finalized = true. -/
theorem builders_finalized_witness :
    ∃ b, WithMap [9] [] none none 2 none none none = Res.ok b
      ∧ b.finalized = true := by
  have h : WithMap [9] [] none none 2 none none none
      = Res.ok ⟨[9], [(mapFilename, jsonEncode [])], 1, true⟩ := by decide
  exact ⟨_, h, builders_finalized.1 [9] [] none none 2 none none none _ h⟩
